import Mathlib

/-!
Verification development for the Hrms repository's Attendance & Approval
Engine and the employee data-model boundary.

The repository's `src/` tree contains the TypeScript type definitions
(frontend `types/index.ts` and the backend type file in `part_000`), the
Employee Mongoose model (with its `toJSON` transform and field validators),
and the client-side Zod validation schema (`employeeValidation.js`).
The engine implementations themselves (Attendance Status Resolver,
Attendance Record Store, Approval Workflow Engine, Geofence Validator) are
not present under `src/`; where a definition embeds one of those missing
components it is modelled from the specification text and its doc comment
says so explicitly.

Conventions of the embedding:
* timestamps within a day are minutes from midnight (`Int`);
* calendar dates are abstract day numbers (`Int`) except where the
  day/month/year structure matters (`CalDate` for the date-fns and Mongoose
  joining-date validators);
* work hours are rational numbers (`Rat`), two-decimal rounding is
  explicit;
* fallible operations return `Except`.
-/

namespace Hrms

/-! ### Canonical enumerated types, embedded from the source -/

/-- Frontend attendance status union
    (src/frontend/src/types/index.ts, lines 11-19). -/
inductive AttendanceStatus where
  | present
  | absent
  | late
  | halfDay
  | leave
  | holiday
  | weekend
  | wfh
deriving DecidableEq

/-- String value each `AttendanceStatus` constructor stands for in the
    TypeScript union. -/
def AttendanceStatus.toString : AttendanceStatus → String
  | .present => "present"
  | .absent => "absent"
  | .late => "late"
  | .halfDay => "half-day"
  | .leave => "leave"
  | .holiday => "holiday"
  | .weekend => "weekend"
  | .wfh => "wfh"

/-- All constructors of the frontend `AttendanceStatus` union. -/
def allAttendanceStatuses : List AttendanceStatus :=
  [.present, .absent, .late, .halfDay, .leave, .holiday, .weekend, .wfh]

/-- The eight string values of the frontend `AttendanceStatus` union
    (src/frontend/src/types/index.ts, lines 11-19), in source order. -/
def frontendAttendanceStatusValues : List String :=
  ["present", "absent", "late", "half-day", "leave", "holiday", "weekend", "wfh"]

/-- The string values of the backend `AttendanceStatus` union
    (src/unnamed/part_000, line 779):
    `type AttendanceStatus = 'present' | 'absent' | 'half-day'`. -/
def backendAttendanceStatusValues : List String :=
  ["present", "absent", "half-day"]

/-- Shared approval status for leaves, WFH, and regularizations
    (src/frontend/src/types/index.ts, line 22, and the `LeaveStatus` /
    `RegularizationStatus` / `WFHStatus` unions in src/unnamed/part_000). -/
inductive ApprovalStatus where
  | pending
  | approved
  | rejected
deriving DecidableEq

/-! ### Work-hours computation (claim C1)

Modelled from the spec: the Attendance Status Resolver implementation is
not under `src/`; the spec states "workHours = max(0, checkOut − checkIn)
in hours, rounded to two decimals; 0 if checkOut is absent."  Check-in and
check-out timestamps are minutes from midnight. -/

/-- Rounding a rational to two decimal places, half away from zero on the
    nonnegative range (JavaScript `Math.round(x * 100) / 100`). -/
def round2 (q : Rat) : Rat :=
  ((⌊q * 100 + 1 / 2⌋ : Int) : Rat) / 100

/-- Modelled from the spec: work-hours computation of the Attendance
    Status Resolver (missing from src/): `max(0, checkOut − checkIn)` in
    hours rounded to two decimals, and `0` when `checkOut` is absent.
    Timestamps are minutes from midnight, so an hour is 60 units. -/
def computeWorkHours (checkIn checkOut : Option Int) : Rat :=
  match checkIn, checkOut with
  | some ci, some co => round2 (max 0 (((co - ci : Int) : Rat) / 60))
  | _, _ => 0

/-- Attendance record shape, embedded from `AttendanceRecord`
    (src/frontend/src/types/index.ts, lines 136-158) and `IAttendance`
    (src/unnamed/part_000, lines 801-817), restricted to the fields the
    claims speak about. -/
structure AttendanceRecord where
  employeeId : Nat
  date : Int
  checkIn : Option Int
  checkOut : Option Int
  status : AttendanceStatus
  workHours : Rat
deriving DecidableEq

/-- Modelled from the spec: the Attendance Record Store invariant that
    "workHours is always recomputed from checkIn/checkOut when both are
    present, never hand-set" — a stored record is well-formed when its
    `workHours` field equals the resolver's computation. -/
def AttendanceRecord.workHoursConsistent (r : AttendanceRecord) : Prop :=
  r.workHours = computeWorkHours r.checkIn r.checkOut

/-! ### Employee toJSON transform (claim C9), embedded from
src/unnamed/part_000, lines 1494-1513 (validators) and 1656-1672
(toJSON transform of the Employee Mongoose schema). -/

/-- Aadhaar validator of the Employee Mongoose schema
    (src/unnamed/part_000, lines 1494-1504): the stored value must match
    `/^[0-9]{12}$/`. -/
def aadhaarValid (s : String) : Bool :=
  (s.length == 12) && s.data.all (·.isDigit)

/-- JavaScript `s.slice(-4)`: the last four characters when the string has
    at least four, the whole string otherwise. -/
def sliceLast4 (s : String) : String :=
  String.mk (s.data.drop (s.length - 4))

/-- JavaScript truthiness of an optional string field: `undefined`, `null`
    and the empty string are falsy. -/
def jsTruthy : Option String → Bool
  | none => false
  | some s => !(s == "")

/-- Serialized employee shape: the two sensitive fields the `toJSON`
    transform of the Employee schema looks at. -/
structure EmployeeJSON where
  aadhaarNumber : Option String
  panNumber : Option String
deriving DecidableEq

/-- The `toJSON` transform of the Employee Mongoose schema
    (src/unnamed/part_000, lines 1656-1672): when `ret.aadhaarNumber` is
    truthy it is replaced by `'XXXX-XXXX-' + ret.aadhaarNumber.slice(-4)`;
    PAN is deliberately left unmasked. -/
def toJSONTransform (ret : EmployeeJSON) : EmployeeJSON :=
  if jsTruthy ret.aadhaarNumber then
    { ret with
      aadhaarNumber :=
        some ("XXXX-XXXX-" ++ sliceLast4 (ret.aadhaarNumber.getD "")) }
  else ret

/-! ### Joining-date validators (claim C10)

The client-side validator is `joiningDate` in
src/frontend/src/schemas/employeeValidation.js, lines 51-58: it accepts a
date when `differenceInYears(new Date(), date) >= -1` (date-fns).  The
backend validator is in the Employee Mongoose schema,
src/unnamed/part_000, lines 1620-1629: it accepts when
`value <= new Date()`.  Calendar dates are modelled by year/month/day. -/

structure CalDate where
  year : Int
  month : Int
  day : Int
deriving DecidableEq

/-- date-fns `compareAsc`: -1 when the first date is earlier, 1 when
    later, 0 when equal (lexicographic on year, month, day). -/
def compareAsc (a b : CalDate) : Int :=
  if a.year < b.year then -1
  else if a.year > b.year then 1
  else if a.month < b.month then -1
  else if a.month > b.month then 1
  else if a.day < b.day then -1
  else if a.day > b.day then 1
  else 0

/-- date-fns `differenceInCalendarYears`. -/
def differenceInCalendarYears (a b : CalDate) : Int :=
  a.year - b.year

/-- date-fns `differenceInYears(dateLeft, dateRight)`: the sign of the
    comparison times the number of full calendar years, subtracting one
    when the last year is not full (both dates are compared after setting
    their years equal, as the library sets both to 1584). -/
def differenceInYears (a b : CalDate) : Int :=
  let sign := compareAsc a b
  let difference := (differenceInCalendarYears a b).natAbs
  let sameYearCmp := compareAsc ⟨1584, a.month, a.day⟩ ⟨1584, b.month, b.day⟩
  let isLastYearNotFull := sameYearCmp = -sign
  sign * ((difference : Int) - (if isLastYearNotFull then 1 else 0))

/-- Client-side Zod joiningDate refinement
    (src/frontend/src/schemas/employeeValidation.js, lines 51-58):
    `differenceInYears(new Date(), date) >= -1`. -/
def zodJoiningDateAccepts (now d : CalDate) : Bool :=
  differenceInYears now d ≥ -1

/-- Backend Mongoose joiningDate validator
    (src/unnamed/part_000, lines 1620-1629): `value <= new Date()`. -/
def mongooseJoiningDateAccepts (now d : CalDate) : Bool :=
  compareAsc d now ≤ 0

/-! ### Attendance Status Resolver (claims C2 and C6)

Modelled from the spec: the resolver implementation is not under `src/`.
Section 4.2 of the spec gives the precedence list (first matching rule
wins):
1. holiday  — configured non-optional holiday and no check-in;
2. leave    — an approved leave overlaps the date;
3. weekend  — configured non-working weekday and no check-in;
4. absent   — no check-in and none of the above;
5. check-in present: late when after scheduled start plus grace and not
   waived by an approved regularization; otherwise wfh when the geofence
   annotation carries the WFH bypass; otherwise half-day when workHours is
   below the half-day threshold or checkout happened before the half-day
   cutoff; otherwise present. -/

/-- Effective working-time settings consulted by the resolver, from the
    spec's EffectiveSettings and the frontend `GlobalSettings` fields
    (workingHours, checkInGracePeriod, halfDayThreshold,
    attendance.halfDayEndTime). Times are minutes from midnight. -/
structure WorkSettings where
  workStartMinutes : Int
  checkInGracePeriod : Int
  halfDayThreshold : Rat
  halfDayEndMinutes : Int
deriving DecidableEq

/-- Inputs of one resolver invocation, following the spec contract
    `resolve(date, checkIn?, checkOut?, approvedLeave?, approvedWFH?,
    isHoliday, isWeekend, settings)`. -/
structure ResolveInput where
  checkIn : Option Int
  checkOut : Option Int
  approvedLeave : Bool
  isHoliday : Bool
  isWeekend : Bool
  wfhBypass : Bool
  lateWaived : Bool
  settings : WorkSettings
deriving DecidableEq

/-- Modelled from the spec: the Attendance Status Resolver's status
    computation (missing from src/), rules applied in precedence order. -/
def resolveStatus (i : ResolveInput) : AttendanceStatus :=
  if i.isHoliday && i.checkIn.isNone then .holiday
  else if i.approvedLeave then .leave
  else if i.isWeekend && i.checkIn.isNone then .weekend
  else
    match i.checkIn with
    | none => .absent
    | some ci =>
      if decide (ci > i.settings.workStartMinutes + i.settings.checkInGracePeriod)
          && !i.lateWaived then .late
      else if i.wfhBypass then .wfh
      else if decide (computeWorkHours i.checkIn i.checkOut < i.settings.halfDayThreshold)
          || (match i.checkOut with
              | some co => decide (co < i.settings.halfDayEndMinutes)
              | none => false) then .halfDay
      else .present

/-- Modelled from the spec: the resolver's full result, status plus
    recomputed work hours. -/
def resolve (i : ResolveInput) : AttendanceStatus × Rat :=
  (resolveStatus i, computeWorkHours i.checkIn i.checkOut)

/-- Holiday entry, embedded from `Holiday`
    (src/frontend/src/types/index.ts, lines 232-240) and `IHoliday`
    (src/unnamed/part_000, lines 938-947). -/
structure Holiday where
  date : Int
  title : String
  isOptional : Bool
deriving DecidableEq

/-- The configured-holiday overlay consulted by the resolver: a date is a
    non-optional holiday when some holiday entry with `isOptional = false`
    falls on it. -/
def isNonOptionalHoliday (hs : List Holiday) (d : Int) : Bool :=
  hs.any (fun h => h.date == d && !h.isOptional)

/-! ### Geofence Validator (claim C5)

Modelled from the spec: the validator implementation is not under `src/`
(only the `IGeofenceValidation` result shape at src/unnamed/part_000,
lines 1315-1324, and the settings shape at
src/frontend/src/types/index.ts, lines 484-494 are).  Spec section 4.1:
the validator computes the great-circle distance to every active office
and selects the nearest; `isValid` is true iff enforcement is disabled or
the distance is at most the matched office's radius; an approved WFH
request with `allowWFHBypass` set always validates with the side-channel
flag; no active offices means validation always succeeds (fail-open); a
low-accuracy sample (accuracy above the configured ceiling) is invalid
evidence, distinguishable from "valid but outside radius".  The
great-circle distance itself is a real-valued trigonometric function and
is abstracted as the `dist` parameter. -/

/-- Location sample handed to the validator: latitude, longitude and an
    optional accuracy, following the spec contract for `validate` and
    `ILocation` in src/unnamed/part_000. -/
structure GeoSample where
  lat : Rat
  lon : Rat
  accuracy : Option Rat
deriving DecidableEq

/-- Office location, embedded from `OfficeLocation`
    (src/frontend/src/types/index.ts, lines 572-584). -/
structure Office where
  id : Nat
  lat : Rat
  lon : Rat
  radius : Rat
  isActive : Bool
deriving DecidableEq

/-- Geofence enforcement settings, embedded from
    `GlobalSettings.general.geofence`
    (src/frontend/src/types/index.ts, lines 484-494) plus the accuracy
    ceiling the spec mentions. -/
structure GeofenceSettings where
  enabled : Bool
  enforceCheckIn : Bool
  enforceCheckOut : Bool
  allowWFHBypass : Bool
  accuracyCeiling : Rat
deriving DecidableEq

/-- Validation result, embedded from `IGeofenceValidation`
    (src/unnamed/part_000, lines 1315-1324) plus the spec's `wfhBypass`
    side-channel flag and the invalid-evidence marker. -/
structure GeofenceResult where
  isValid : Bool
  matchedOffice : Option Nat
  distance : Option Rat
  wfhBypass : Bool
  invalidEvidence : Bool
deriving DecidableEq

/-- Active offices of a configured office list. -/
def activeOffices (offices : List Office) : List Office :=
  offices.filter (·.isActive)

/-- Nearest active office under the distance function `dist`
    (first wins on ties, matching a fold over the configured list). -/
def nearestOffice (dist : GeoSample → Office → Rat) (s : GeoSample)
    (offices : List Office) : Option Office :=
  (activeOffices offices).foldl
    (fun acc o =>
      match acc with
      | none => some o
      | some b => if dist s o < dist s b then some o else acc)
    none

/-- Whether the sample's accuracy is above the configured ceiling
    (the spec's "invalid evidence" case; a sample with no reported
    accuracy is not flagged). -/
def lowAccuracy (s : GeoSample) (st : GeofenceSettings) : Bool :=
  match s.accuracy with
  | some a => decide (a > st.accuracyCeiling)
  | none => false

/-- Modelled from the spec: the Geofence Validator (missing from src/).
    Rule order: approved-WFH bypass, enforcement disabled, low-accuracy
    evidence, fail-open on no active offices, then the radius check
    against the nearest active office. -/
def geofenceValidate (dist : GeoSample → Office → Rat) (s : GeoSample)
    (offices : List Office) (st : GeofenceSettings)
    (wfhApproved : Bool) : GeofenceResult :=
  if wfhApproved && st.allowWFHBypass then
    { isValid := true, matchedOffice := none, distance := none,
      wfhBypass := true, invalidEvidence := false }
  else if !st.enabled then
    { isValid := true, matchedOffice := none, distance := none,
      wfhBypass := false, invalidEvidence := false }
  else if lowAccuracy s st then
    { isValid := false, matchedOffice := none, distance := none,
      wfhBypass := false, invalidEvidence := true }
  else
    match nearestOffice dist s offices with
    | none =>
      { isValid := true, matchedOffice := none, distance := none,
        wfhBypass := false, invalidEvidence := false }
    | some o =>
      { isValid := decide (dist s o ≤ o.radius), matchedOffice := some o.id,
        distance := some (dist s o), wfhBypass := false,
        invalidEvidence := false }

/-- Distance function used by concrete counterexamples: zero everywhere
    (its value is irrelevant when no office is configured). -/
def distZero : GeoSample → Office → Rat := fun _ _ => 0

/-! ### Attendance Record Store (claims C7 and C8)

Modelled from the spec: the store implementation is not under `src/`.
Spec section 4.3: `recordCheckIn` fails with DuplicateCheckIn when a
check-in already exists for the (employee, date) key; `recordCheckOut`
fails with NoOpenCheckIn when no check-in exists; regularization and
leave/WFH approval upsert the affected day(s); the nightly job
materializes records for days with no check-in; every mutating call
re-runs the Resolver before persisting. -/

/-- Store-level error taxonomy from spec sections 4.3 and 7. -/
inductive StoreErr where
  | duplicateCheckIn
  | noOpenCheckIn
deriving DecidableEq

/-- Day-level context the store passes to the resolver when it re-runs it:
    the overlays and effective settings active at write time. -/
structure DayCtx where
  approvedLeave : Bool
  isHoliday : Bool
  isWeekend : Bool
  wfhBypass : Bool
  lateWaived : Bool
  settings : WorkSettings
deriving DecidableEq

/-- The store's persisted state: the list of attendance records. -/
abbrev Store : Type := List AttendanceRecord

/-- Whether a record sits at the (employeeId, date) key. -/
def keyIs (emp : Nat) (d : Int) (r : AttendanceRecord) : Bool :=
  decide (r.employeeId = emp ∧ r.date = d)

/-- Lookup of the record at a key. -/
def findRecord (st : Store) (emp : Nat) (d : Int) : Option AttendanceRecord :=
  List.find? (keyIs emp d) st

/-- Number of records stored at a key. -/
def countKey (st : Store) (emp : Nat) (d : Int) : Nat :=
  (List.filter (keyIs emp d) st).length

/-- The store invariant of claim C7: at most one record per
    (employeeId, date) key. -/
def storeInv (st : Store) : Prop :=
  ∀ emp d, countKey st emp d ≤ 1

/-- A record-updating function that never changes the key fields. -/
def KeyPre (f : AttendanceRecord → AttendanceRecord) : Prop :=
  ∀ r, (f r).employeeId = r.employeeId ∧ (f r).date = r.date

/-- In-place update of the record at a key. -/
def updateRecord (st : Store) (emp : Nat) (d : Int)
    (f : AttendanceRecord → AttendanceRecord) : Store :=
  List.map (fun r => if keyIs emp d r then f r else r) st

/-- Fresh record for a key before any event is applied to it. -/
def blankRecord (emp : Nat) (d : Int) : AttendanceRecord :=
  { employeeId := emp, date := d, checkIn := none, checkOut := none,
    status := .absent, workHours := 0 }

/-- Modelled from the spec: every mutating store call re-runs the Resolver
    before persisting, so `status` and `workHours` are recomputed from the
    record's own fields plus the day context. -/
def reResolve (ctx : DayCtx) (r : AttendanceRecord) : AttendanceRecord :=
  { r with
    status := resolveStatus
      { checkIn := r.checkIn, checkOut := r.checkOut,
        approvedLeave := ctx.approvedLeave, isHoliday := ctx.isHoliday,
        isWeekend := ctx.isWeekend, wfhBypass := ctx.wfhBypass,
        lateWaived := ctx.lateWaived, settings := ctx.settings },
    workHours := computeWorkHours r.checkIn r.checkOut }

/-- Update when the key exists, insert otherwise. -/
def upsertRecord (st : Store) (emp : Nat) (d : Int)
    (f : AttendanceRecord → AttendanceRecord) : Store :=
  if (findRecord st emp d).isSome then updateRecord st emp d f
  else f (blankRecord emp d) :: st

/-- Modelled from the spec: `recordCheckIn` — fails with DuplicateCheckIn
    when a check-in already exists at the key, otherwise sets the check-in
    (creating the day's record when absent) and re-resolves. -/
def recordCheckIn (ctx : DayCtx) (st : Store) (emp : Nat) (d : Int)
    (ts : Int) : Except StoreErr Store :=
  match findRecord st emp d with
  | some r =>
    if r.checkIn.isSome then .error .duplicateCheckIn
    else .ok (updateRecord st emp d
        (fun r0 => reResolve ctx { r0 with checkIn := some ts }))
  | none => .ok (reResolve ctx { blankRecord emp d with checkIn := some ts } :: st)

/-- Modelled from the spec: `recordCheckOut` — fails with NoOpenCheckIn
    when no check-in exists for the date, otherwise sets the check-out and
    re-resolves. -/
def recordCheckOut (ctx : DayCtx) (st : Store) (emp : Nat) (d : Int)
    (ts : Int) : Except StoreErr Store :=
  match findRecord st emp d with
  | some r =>
    if r.checkIn.isNone then .error .noOpenCheckIn
    else .ok (updateRecord st emp d
        (fun r0 => reResolve ctx { r0 with checkOut := some ts }))
  | none => .error .noOpenCheckIn

/-- Modelled from the spec: `applyRegularization` — re-invokes the
    resolver with the requested check-in/out values, upserting the day's
    record. -/
def applyRegularization (ctx : DayCtx) (st : Store) (emp : Nat) (d : Int)
    (reqIn reqOut : Option Int) : Store :=
  upsertRecord st emp d
    (fun r0 => reResolve ctx { r0 with checkIn := reqIn, checkOut := reqOut })

/-- Overlay context an approved leave or WFH request adds to the day
    context before the store re-resolves the affected dates. -/
def leaveCtx (ctx : DayCtx) (isWFH : Bool) : DayCtx :=
  { ctx with approvedLeave := ctx.approvedLeave || !isWFH,
             wfhBypass := ctx.wfhBypass || isWFH }

/-- Modelled from the spec: `applyLeaveOrWFHApproval` — upserts and
    re-resolves every date of the approved request's range, with the
    approved-leave overlay or the WFH bypass set. -/
def applyLeaveOrWFHApproval (ctx : DayCtx) (st : Store) (emp : Nat)
    (dates : List Int) (isWFH : Bool) : Store :=
  List.foldl
    (fun acc d => upsertRecord acc emp d (reResolve (leaveCtx ctx isWFH)))
    st dates

/-- One step of the nightly materialization job: insert a resolved record
    for the pair's key when none exists yet. -/
def matStep (ctx : DayCtx) (acc : Store) (p : Nat × Int) : Store :=
  match findRecord acc p.1 p.2 with
  | some _ => acc
  | none => reResolve ctx (blankRecord p.1 p.2) :: acc

/-- Modelled from the spec: the nightly materialization job — for every
    listed (employee, prior day) pair with no record, inserts a resolved
    record so absent/holiday/weekend days get written; idempotent. -/
def materializeDays (ctx : DayCtx) (st : Store)
    (pairs : List (Nat × Int)) : Store :=
  List.foldl (matStep ctx) st pairs

/-- The mutating operations of the Attendance Record Store named by
    claim C7. -/
inductive StoreOp where
  | checkInOp (ctx : DayCtx) (emp : Nat) (d : Int) (ts : Int)
  | checkOutOp (ctx : DayCtx) (emp : Nat) (d : Int) (ts : Int)
  | regOp (ctx : DayCtx) (emp : Nat) (d : Int) (reqIn reqOut : Option Int)
  | leaveWfhOp (ctx : DayCtx) (emp : Nat) (dates : List Int) (isWFH : Bool)
  | materializeOp (ctx : DayCtx) (pairs : List (Nat × Int))

/-- One store operation step. -/
def runStoreOp : StoreOp → Store → Except StoreErr Store
  | .checkInOp ctx emp d ts, st => recordCheckIn ctx st emp d ts
  | .checkOutOp ctx emp d ts, st => recordCheckOut ctx st emp d ts
  | .regOp ctx emp d ri ro, st => .ok (applyRegularization ctx st emp d ri ro)
  | .leaveWfhOp ctx emp dates w, st => .ok (applyLeaveOrWFHApproval ctx st emp dates w)
  | .materializeOp ctx pairs, st => .ok (materializeDays ctx st pairs)

/-- Keys an operation writes to. -/
def touchedKeys : StoreOp → List (Nat × Int)
  | .checkInOp _ emp d _ => [(emp, d)]
  | .checkOutOp _ emp d _ => [(emp, d)]
  | .regOp _ emp d _ _ => [(emp, d)]
  | .leaveWfhOp _ emp dates _ => List.map (fun d => (emp, d)) dates
  | .materializeOp _ pairs => pairs

/-! ### Approval Workflow Engine (claims C3, C4 and C8)

Modelled from the spec: the engine implementation is not under `src/`
(only the request/status types are).  Spec section 4.4: one shared state
machine for Leave, WFH and Regularization; `pending` transitions exactly
once to `approved` or `rejected`; `submit` fails with
DuplicatePendingRequest when a non-terminal request of the same kind
already exists for the (employeeId, date) key; `review` fails with
InvalidTransition when the request is not pending and NotFound when the
id is unknown; approval triggers the store application, rejection
mutates no attendance. -/

/-- The three request kinds the engine manages. -/
inductive ReqKind where
  | leaveKind
  | wfhKind
  | regKind
deriving DecidableEq

/-- Request record, embedded from `Leave`, `WFHRequest` and
    `RegularizationRequest` (src/frontend/src/types/index.ts, lines
    173-226), restricted to the fields the claims speak about; `date` is
    the (employeeId, date) key and `endDate` closes a leave span. -/
structure Request where
  id : Nat
  kind : ReqKind
  employeeId : Nat
  date : Int
  endDate : Int
  requestedCheckIn : Option Int
  requestedCheckOut : Option Int
  status : ApprovalStatus
deriving DecidableEq

/-- Consecutive day numbers from `a` to `b`. -/
def dateRange (a b : Int) : List Int :=
  List.map (fun n => a + (n : Int)) (List.range (b - a + 1).toNat)

/-- Dates an approved request affects: the full span for leave, the
    single key date otherwise. -/
def Request.affectedDates (r : Request) : List Int :=
  match r.kind with
  | .leaveKind => dateRange r.date r.endDate
  | _ => [r.date]

/-- Engine error taxonomy from spec sections 4.4 and 7. -/
inductive WorkflowErr where
  | duplicatePendingRequest
  | invalidTransition
  | notFound
deriving DecidableEq

/-- State the engine owns: the requests, plus the attendance store it
    drives on approval. -/
structure EngineState where
  requests : List Request
  store : Store

/-- Payload of a submission (the engine assigns id and pending status). -/
structure RequestData where
  kind : ReqKind
  employeeId : Nat
  date : Int
  endDate : Int
  requestedCheckIn : Option Int
  requestedCheckOut : Option Int

/-- Whether a request matches kind, key and the pending status. -/
def pendingPred (k : ReqKind) (emp : Nat) (d : Int) (r : Request) : Bool :=
  decide (r.kind = k ∧ r.employeeId = emp ∧ r.date = d ∧ r.status = .pending)

/-- Number of pending requests of a kind at a key. -/
def pendingCount (reqs : List Request) (k : ReqKind) (emp : Nat)
    (d : Int) : Nat :=
  (List.filter (pendingPred k emp d) reqs).length

/-- The workflow invariant of claim C4: at most one non-terminal request
    per kind per (employeeId, date). -/
def pendingInv (reqs : List Request) : Prop :=
  ∀ k emp d, pendingCount reqs k emp d ≤ 1

/-- The duplicate check `submit` performs. -/
def hasPendingSame (reqs : List Request) (k : ReqKind) (emp : Nat)
    (d : Int) : Bool :=
  List.any reqs (pendingPred k emp d)

/-- Identifier strictly greater than every stored request id. -/
def freshId (reqs : List Request) : Nat :=
  List.foldr (fun a b => max a b) 0 (List.map Request.id reqs) + 1

/-- Modelled from the spec: `submit(request)` — fails with
    DuplicatePendingRequest when a non-terminal request of the same kind
    already exists for the (employeeId, date) key, otherwise stores the
    new request as pending under a fresh id. -/
def submit (s : EngineState) (rd : RequestData) : Except WorkflowErr EngineState :=
  if hasPendingSame s.requests rd.kind rd.employeeId rd.date then
    .error .duplicatePendingRequest
  else
    .ok { s with requests :=
      { id := freshId s.requests, kind := rd.kind,
        employeeId := rd.employeeId, date := rd.date, endDate := rd.endDate,
        requestedCheckIn := rd.requestedCheckIn,
        requestedCheckOut := rd.requestedCheckOut,
        status := .pending } :: s.requests }

/-- Reviewer decision. -/
inductive Decision where
  | approve
  | reject
deriving DecidableEq

/-- Terminal status a decision assigns. -/
def Decision.toStatus : Decision → ApprovalStatus
  | .approve => .approved
  | .reject => .rejected

/-- Lookup of a request by id. -/
def findReq (reqs : List Request) (id : Nat) : Option Request :=
  List.find? (fun r => decide (r.id = id)) reqs

/-- Status assignment on the request with the given id. -/
def setStatus (reqs : List Request) (id : Nat) (st : ApprovalStatus) : List Request :=
  List.map (fun r => if r.id = id then { r with status := st } else r) reqs

/-- Store application an approval triggers, by request kind. -/
def applyApproval (ctx : DayCtx) (store : Store) (r : Request) : Store :=
  match r.kind with
  | .regKind => applyRegularization ctx store r.employeeId r.date
      r.requestedCheckIn r.requestedCheckOut
  | .leaveKind => applyLeaveOrWFHApproval ctx store r.employeeId
      r.affectedDates false
  | .wfhKind => applyLeaveOrWFHApproval ctx store r.employeeId
      r.affectedDates true

/-- Modelled from the spec: `review(requestId, decision, ...)` — fails
    with NotFound on an unknown id and InvalidTransition when the request
    is not pending; otherwise persists the terminal status, and on
    approval applies the attendance re-resolution; on rejection no
    attendance mutation occurs. -/
def review (ctx : DayCtx) (s : EngineState) (id : Nat)
    (d : Decision) : Except WorkflowErr EngineState :=
  match findReq s.requests id with
  | none => .error .notFound
  | some r =>
    if r.status ≠ .pending then .error .invalidTransition
    else
      match d with
      | .reject => .ok { s with requests := setStatus s.requests id .rejected }
      | .approve =>
        .ok { requests := setStatus s.requests id .approved,
              store := applyApproval ctx s.store r }

/-- The operations of the Approval Workflow Engine. -/
inductive EngineOp where
  | submitOp (rd : RequestData)
  | reviewOp (ctx : DayCtx) (id : Nat) (d : Decision)

/-- One engine operation step. -/
def runEngineOp : EngineOp → EngineState → Except WorkflowErr EngineState
  | .submitOp rd, s => submit s rd
  | .reviewOp ctx id d, s => review ctx s id d

/-- Concrete day context used by the closed witness statements. -/
def ctxDefault : DayCtx :=
  { approvedLeave := false, isHoliday := false, isWeekend := false,
    wfhBypass := false, lateWaived := false,
    settings := { workStartMinutes := 540, checkInGracePeriod := 15,
                  halfDayThreshold := 4, halfDayEndMinutes := 840 } }

/-- Concrete request list used by the closed witness statements: one
    pending WFH request and one already-approved leave request. -/
def reqs0 : List Request :=
  [{ id := 1, kind := .wfhKind, employeeId := 7, date := 3, endDate := 3,
     requestedCheckIn := none, requestedCheckOut := none, status := .pending },
   { id := 2, kind := .leaveKind, employeeId := 7, date := 5, endDate := 6,
     requestedCheckIn := none, requestedCheckOut := none, status := .approved }]

theorem round2_nonneg {q : Rat} (hq : 0 ≤ q) : 0 ≤ round2 q := by
  unfold round2
  apply div_nonneg _ (by norm_num)
  have h : (0 : Int) ≤ ⌊q * 100 + 1 / 2⌋ := by
    rw [Int.le_floor]
    push_cast
    nlinarith
  exact_mod_cast h

/-- Claim C1: for every attendance record whose `workHours` was produced
    by the store (the spec's "always recomputed, never hand-set"
    invariant), if both `checkIn` and `checkOut` are set then `workHours`
    equals `max(0, checkOut − checkIn)` in hours rounded to two decimals
    and is never negative; when `checkOut` is absent, `workHours` is `0`. -/
theorem workHours_spec (r : AttendanceRecord)
    (hwf : r.workHoursConsistent) :
    (∀ ci co : Int, r.checkIn = some ci → r.checkOut = some co →
      r.workHours = round2 (max 0 (((co - ci : Int) : Rat) / 60)) ∧
      0 ≤ r.workHours) ∧
    (r.checkOut = none → r.workHours = 0) := by
  constructor
  · intro ci co hci hco
    rw [AttendanceRecord.workHoursConsistent, hci, hco] at hwf
    refine ⟨hwf, ?_⟩
    rw [hwf, computeWorkHours]
    exact round2_nonneg (le_max_left 0 _)
  · intro hco
    rw [AttendanceRecord.workHoursConsistent, hco] at hwf
    rw [hwf]
    cases r.checkIn <;> rfl

/-- Witness for C1: a concrete record with check-in 09:00 (540) and
    check-out 18:05 (1085) has workHours 9.08 and is nonnegative. -/
theorem workHours_spec_witness :
    let r : AttendanceRecord :=
      { employeeId := 1, date := 0, checkIn := some 540,
        checkOut := some 1085, status := .present, workHours := 908 / 100 }
    r.workHoursConsistent ∧
      (r.workHours = round2 (max 0 (((1085 - 540 : Int) : Rat) / 60)) ∧
        0 ≤ r.workHours) := by
  intro r
  have hwf : r.workHoursConsistent := by
    show (908 : Rat) / 100 = computeWorkHours (some 540) (some 1085)
    norm_num [computeWorkHours, round2]
  exact ⟨hwf, (workHours_spec r hwf).1 540 1085 rfl rfl⟩

/-- Claim C9: for every employee document serialized through the model's
    toJSON transform, if `aadhaarNumber` is present (any value admitted by
    the schema's 12-digit Aadhaar validator) the serialized value equals
    `"XXXX-XXXX-"` followed by the last 4 characters of the stored value,
    the full stored Aadhaar never appears, and `panNumber` is emitted
    unmasked. -/
theorem toJSONTransform_masks_aadhaar (ret : EmployeeJSON) (s : String)
    (hs : ret.aadhaarNumber = some s) (hv : aadhaarValid s = true) :
    (toJSONTransform ret).aadhaarNumber =
      some ("XXXX-XXXX-" ++ sliceLast4 s) ∧
    (toJSONTransform ret).aadhaarNumber ≠ some s ∧
    (toJSONTransform ret).panNumber = ret.panNumber := by
  have hlen : s.length = 12 := by
    have h := (Bool.and_eq_true _ _).mp hv
    exact beq_iff_eq.mp h.1
  have hne : s ≠ "" := by
    intro h
    rw [h] at hlen
    exact absurd hlen (by decide)
  have htruthy2 : jsTruthy (some s) = true := by
    simp [jsTruthy, hne]
  have htruthy : jsTruthy ret.aadhaarNumber = true := by
    rw [hs]
    exact htruthy2
  have hmask : (toJSONTransform ret).aadhaarNumber =
      some ("XXXX-XXXX-" ++ sliceLast4 s) := by
    simp [toJSONTransform, hs, htruthy2]
  refine ⟨hmask, ?_, ?_⟩
  · rw [hmask]
    intro hcontra
    have heq : "XXXX-XXXX-" ++ sliceLast4 s = s := Option.some.inj hcontra
    have hslen : (sliceLast4 s).length = 4 := by
      have hdata : s.data.length = 12 := hlen
      show (s.data.drop (s.length - 4)).length = 4
      rw [List.length_drop]
      omega
    have hfull : ("XXXX-XXXX-" ++ sliceLast4 s).length = 14 := by
      rw [String.length_append, hslen]
      rfl
    rw [heq, hlen] at hfull
    exact absurd hfull (by decide)
  · rw [toJSONTransform, if_pos htruthy]

/-- Witness for C9: the concrete Aadhaar value 123456789012 serializes to
    XXXX-XXXX-9012 and PAN passes through unchanged. -/
theorem toJSONTransform_masks_aadhaar_witness :
    (toJSONTransform
        { aadhaarNumber := some "123456789012",
          panNumber := some "ABCDE1234F" }).aadhaarNumber =
      some ("XXXX-XXXX-" ++ sliceLast4 "123456789012") ∧
    (toJSONTransform
        { aadhaarNumber := some "123456789012",
          panNumber := some "ABCDE1234F" }).aadhaarNumber ≠
      some "123456789012" ∧
    (toJSONTransform
        { aadhaarNumber := some "123456789012",
          panNumber := some "ABCDE1234F" }).panNumber =
      some "ABCDE1234F" :=
  toJSONTransform_masks_aadhaar
    { aadhaarNumber := some "123456789012", panNumber := some "ABCDE1234F" }
    "123456789012" rfl (by decide)

/-- Claim C10: the client-side joining-date validator and the backend
    Employee model validator are not equivalent: a joining date thirty
    days in the future (strictly after today, well under one year ahead)
    is accepted by the Zod schema but rejected by the Mongoose schema. -/
theorem joiningDate_validators_differ :
    let now : CalDate := ⟨2026, 10, 12⟩
    let d : CalDate := ⟨2026, 11, 11⟩
    compareAsc now d = -1 ∧
    compareAsc d ⟨2027, 10, 12⟩ = -1 ∧
    zodJoiningDateAccepts now d = true ∧
    mongooseJoiningDateAccepts now d = false := by
  decide

/-- Counterexample for claim C2 as stated: the resolver produces the
    status `late` (check-in 10:30 against start 09:00 with 15 minutes
    grace), which is one of the eight frontend values but is NOT
    representable in the backend canonical `AttendanceStatus` type of
    src/unnamed/part_000 line 779, which holds only present, absent and
    half-day. -/
theorem attendanceStatus_backend_missing_values :
    let i : ResolveInput :=
      { checkIn := some 630, checkOut := some 1080, approvedLeave := false,
        isHoliday := false, isWeekend := false, wfhBypass := false,
        lateWaived := false,
        settings := { workStartMinutes := 540, checkInGracePeriod := 15,
                      halfDayThreshold := 4, halfDayEndMinutes := 840 } }
    resolveStatus i = .late ∧
    AttendanceStatus.toString .late ∈ frontendAttendanceStatusValues ∧
    AttendanceStatus.toString .late ∉ backendAttendanceStatusValues := by
  refine ⟨?_, by decide, by decide⟩
  rfl

/-- Claim C2 as amended: the status produced by the resolver is always one
    of the eight values of the frontend `AttendanceStatus` union, and the
    eight constructors of that union enumerate exactly those eight string
    values; the backend `AttendanceStatus` union contains only three of
    them. -/
theorem resolveStatus_in_frontend_values :
    (∀ i : ResolveInput,
      AttendanceStatus.toString (resolveStatus i) ∈ frontendAttendanceStatusValues) ∧
    allAttendanceStatuses.map AttendanceStatus.toString =
      frontendAttendanceStatusValues := by
  constructor
  · intro i
    cases h : resolveStatus i <;> decide
  · decide

/-- Claim C6: whenever the date is a configured non-optional holiday and
    the employee has no check-in recorded, the resolver yields `holiday`,
    whatever the weekend flag and every other input is. -/
theorem holiday_precedence (hs : List Holiday) (d : Int) (i : ResolveInput)
    (hhol : i.isHoliday = isNonOptionalHoliday hs d)
    (hconf : isNonOptionalHoliday hs d = true)
    (hnoci : i.checkIn = none) :
    resolveStatus i = .holiday := by
  rw [resolveStatus, hhol, hconf, hnoci]
  rfl

/-- Witness for C6: 2024-12-25 (day number 25) is a non-optional holiday;
    with no check-in and the weekend flag set, the resolver still yields
    `holiday`. -/
theorem holiday_precedence_witness :
    resolveStatus
      { checkIn := none, checkOut := none, approvedLeave := false,
        isHoliday := isNonOptionalHoliday [⟨25, "Christmas", false⟩] 25,
        isWeekend := true, wfhBypass := false, lateWaived := false,
        settings := { workStartMinutes := 540, checkInGracePeriod := 15,
                      halfDayThreshold := 4, halfDayEndMinutes := 840 } } =
      .holiday :=
  holiday_precedence [⟨25, "Christmas", false⟩] 25 _ rfl (by decide) rfl

/-- Counterexample for claim C5 as stated: with geofence enforcement
    enabled, an accurate sample and no offices configured at all, the
    validator fails open and returns valid, yet enforcement is not
    disabled and no active office is within radius (there is none). -/
theorem geofence_claim_fails_on_empty_offices :
    let s : GeoSample := { lat := 0, lon := 0, accuracy := some 5 }
    let st : GeofenceSettings :=
      { enabled := true, enforceCheckIn := true, enforceCheckOut := true,
        allowWFHBypass := false, accuracyCeiling := 100 }
    (geofenceValidate distZero s [] st false).isValid = true ∧
      ¬ (st.enabled = false ∨
          ∃ o : Office, nearestOffice distZero s [] = some o ∧
            distZero s o ≤ o.radius) := by
  refine ⟨rfl, ?_⟩
  rintro (h | ⟨o, ho, -⟩)
  · exact absurd h (by decide)
  · simp [nearestOffice, activeOffices] at ho

/-- Claim C5 as amended: with no approved WFH request in play, the
    validator returns valid exactly when enforcement is disabled, or the
    sample's accuracy is acceptable and either no active office is
    configured (fail-open) or the distance to the nearest active office is
    at most that office's radius. -/
theorem geofence_isValid_iff (dist : GeoSample → Office → Rat)
    (s : GeoSample) (offices : List Office) (st : GeofenceSettings) :
    (geofenceValidate dist s offices st false).isValid = true ↔
      (st.enabled = false ∨
        (lowAccuracy s st = false ∧
          (nearestOffice dist s offices = none ∨
            ∃ o : Office, nearestOffice dist s offices = some o ∧
              dist s o ≤ o.radius))) := by
  rw [geofenceValidate]
  simp only [Bool.false_and, Bool.false_eq_true, if_false]
  by_cases hen : st.enabled
  · simp only [hen, Bool.not_true, Bool.false_eq_true, if_false]
    by_cases hacc : lowAccuracy s st
    · simp [hacc]
    · simp only [Bool.not_eq_true] at hacc
      rw [hacc]
      simp only [Bool.false_eq_true, if_false]
      cases hno : nearestOffice dist s offices with
      | none => simp [hen, hacc]
      | some o =>
        simp only [hen, hacc, decide_eq_true_eq]
        constructor
        · intro hle
          exact Or.inr ⟨trivial, Or.inr ⟨o, rfl, hle⟩⟩
        · rintro (h | ⟨-, (h | ⟨o2, ho2, hle⟩)⟩)
          · exact absurd h (by simp [hen])
          · exact absurd h (by simp)
          · cases Option.some.inj ho2
            exact hle
  · simp only [Bool.not_eq_true] at hen
    rw [hen]
    simp

/-! ### Approval Workflow Engine lemmas and theorems -/

theorem mem_le_foldr_max (l : List Nat) (a : Nat) (h : a ∈ l) :
    a ≤ List.foldr (fun x y => max x y) 0 l := by
  induction l with
  | nil => cases h
  | cons b bs ih =>
    rcases List.mem_cons.mp h with rfl | h2
    · exact le_max_left _ _
    · exact le_trans (ih h2) (le_max_right _ _)

theorem id_lt_freshId {reqs : List Request} {r : Request} (h : r ∈ reqs) :
    r.id < freshId reqs := by
  have := mem_le_foldr_max (List.map Request.id reqs) r.id
    (List.mem_map_of_mem _ h)
  unfold freshId
  omega

theorem setStatus_conclusion (reqs : List Request) (id : Nat)
    (st : ApprovalStatus) (hids : (List.map Request.id reqs).Nodup)
    (r0 : Request) (hr0mem : r0 ∈ reqs) (hr0id : r0.id = id)
    (hp0 : r0.status = .pending)
    (hst : st = .approved ∨ st = .rejected) :
    (∀ r ∈ reqs, r.status ≠ .pending → r ∈ setStatus reqs id st) ∧
    (∀ r ∈ reqs, ∀ r2 ∈ setStatus reqs id st, r2.id = r.id →
      r2.status ≠ r.status →
      r.status = .pending ∧ (r2.status = .approved ∨ r2.status = .rejected)) := by
  constructor
  · intro r hr hterm
    have hne : ¬(r.id = id) := by
      intro h
      have hre : r = r0 :=
        List.inj_on_of_nodup_map hids hr hr0mem (by rw [h, hr0id])
      rw [hre, hp0] at hterm
      exact hterm rfl
    have hmem := List.mem_map_of_mem
      (fun x => if x.id = id then { x with status := st } else x) hr
    simp only [hne, if_false, ite_false] at hmem
    exact hmem
  · intro r hr r2 hr2 hid2 hst2
    obtain ⟨a, ha, hfa⟩ := List.mem_map.mp hr2
    by_cases hae : a.id = id
    · simp only [hae, if_true, ite_true] at hfa
      have hr2id : r2.id = id := by rw [← hfa]
      have hrid : r.id = id := by rw [← hid2]; exact hr2id
      have hreq0 : r = r0 :=
        List.inj_on_of_nodup_map hids hr hr0mem (by rw [hrid, hr0id])
      refine ⟨by rw [hreq0]; exact hp0, ?_⟩
      rw [← hfa]
      exact hst
    · simp only [hae, if_false, ite_false] at hfa
      have hra : r2 = r := by
        apply List.inj_on_of_nodup_map hids ?_ hr hid2
        rw [← hfa]
        exact ha
      rw [hra] at hst2
      exact absurd rfl hst2

/-- Claim C3: for every engine operation from a state with distinct
    request ids, every request that is already terminal (approved or
    rejected) survives unchanged, and any request whose status changes was
    pending and moves to approved or rejected — the only transition out of
    pending, and no transition out of a terminal state. -/
theorem approval_transitions (op : EngineOp) (s s' : EngineState)
    (hids : (List.map Request.id s.requests).Nodup)
    (hrun : runEngineOp op s = .ok s') :
    (∀ r ∈ s.requests, r.status ≠ .pending → r ∈ s'.requests) ∧
    (∀ r ∈ s.requests, ∀ r2 ∈ s'.requests, r2.id = r.id →
      r2.status ≠ r.status →
      r.status = .pending ∧ (r2.status = .approved ∨ r2.status = .rejected)) := by
  cases op with
  | submitOp rd =>
    simp only [runEngineOp] at hrun
    rw [submit] at hrun
    by_cases hdup : hasPendingSame s.requests rd.kind rd.employeeId rd.date = true
    · rw [if_pos hdup] at hrun
      exact Except.noConfusion hrun
    · rw [if_neg hdup] at hrun
      cases Except.ok.inj hrun
      constructor
      · intro r hr _
        exact List.mem_cons_of_mem _ hr
      · intro r hr r2 hr2 hid2 hst2
        rcases List.mem_cons.mp hr2 with rfl | hr2m
        · exfalso
          have hlt : r.id < freshId s.requests := id_lt_freshId hr
          have : freshId s.requests = r.id := hid2
          omega
        · have : r2 = r := List.inj_on_of_nodup_map hids hr2m hr hid2
          rw [this] at hst2
          exact absurd rfl hst2
  | reviewOp ctx id dec =>
    simp only [runEngineOp] at hrun
    rw [review] at hrun
    split at hrun
    · exact Except.noConfusion hrun
    · rename_i r0 hfind
      split at hrun
      · exact Except.noConfusion hrun
      · rename_i hp
        have hp0 : r0.status = .pending := not_ne_iff.mp hp
        have hfind2 : List.find? (fun r => decide (r.id = id)) s.requests =
            some r0 := hfind
        have hr0mem : r0 ∈ s.requests := List.mem_of_find?_eq_some hfind2
        have hdec := List.find?_some hfind2
        have hr0id : r0.id = id := of_decide_eq_true hdec
        cases dec with
        | reject =>
          cases Except.ok.inj hrun
          exact setStatus_conclusion s.requests id .rejected hids r0 hr0mem
            hr0id hp0 (Or.inr rfl)
        | approve =>
          cases Except.ok.inj hrun
          exact setStatus_conclusion s.requests id .approved hids r0 hr0mem
            hr0id hp0 (Or.inl rfl)

/-- Witness for C3: reviewing the pending WFH request of the concrete
    state with decision reject keeps the already-approved leave request
    intact and moves only the pending one, to rejected. -/
theorem approval_transitions_witness :
    (∀ r ∈ reqs0, r.status ≠ .pending →
      r ∈ setStatus reqs0 1 ApprovalStatus.rejected) ∧
    (∀ r ∈ reqs0, ∀ r2 ∈ setStatus reqs0 1 ApprovalStatus.rejected,
      r2.id = r.id → r2.status ≠ r.status →
      r.status = .pending ∧ (r2.status = .approved ∨ r2.status = .rejected)) :=
  approval_transitions (.reviewOp ctxDefault 1 .reject)
    { requests := reqs0, store := ([] : List AttendanceRecord) }
    { requests := setStatus reqs0 1 .rejected,
      store := ([] : List AttendanceRecord) }
    (by decide) rfl

theorem pendingCount_cons (r : Request) (rs : List Request) (k : ReqKind)
    (emp : Nat) (d : Int) :
    pendingCount (r :: rs) k emp d =
      (if pendingPred k emp d r then 1 else 0) + pendingCount rs k emp d := by
  unfold pendingCount
  cases h : pendingPred k emp d r with
  | false => simp [List.filter_cons, h]
  | true => simp [List.filter_cons, h, Nat.add_comm]

theorem pendingCount_zero_of_no_pending {reqs : List Request} {k : ReqKind}
    {emp : Nat} {d : Int}
    (h : hasPendingSame reqs k emp d = false) :
    pendingCount reqs k emp d = 0 := by
  induction reqs with
  | nil => rfl
  | cons r rs ih =>
    rw [hasPendingSame, List.any_cons, Bool.or_eq_false_iff] at h
    rw [pendingCount_cons, h.1, ih h.2]
    simp

theorem pendingCount_setStatus_le (reqs : List Request) (id : Nat)
    (st : ApprovalStatus) (hst : st ≠ ApprovalStatus.pending)
    (k : ReqKind) (emp : Nat) (d : Int) :
    pendingCount (setStatus reqs id st) k emp d ≤
      pendingCount reqs k emp d := by
  induction reqs with
  | nil => exact Nat.le_refl 0
  | cons r rs ih =>
    show pendingCount ((if r.id = id then { r with status := st } else r) ::
      setStatus rs id st) k emp d ≤ _
    rw [pendingCount_cons, pendingCount_cons]
    apply Nat.add_le_add _ ih
    by_cases he : r.id = id
    · rw [if_pos he]
      have hfalse : pendingPred k emp d { r with status := st } = false := by
        unfold pendingPred
        apply decide_eq_false
        rintro ⟨-, -, -, hc⟩
        exact hst hc
      simp [hfalse]
    · rw [if_neg he]

theorem hasPendingSame_iff (reqs : List Request) (k : ReqKind) (emp : Nat)
    (d : Int) :
    hasPendingSame reqs k emp d = true ↔
      ∃ r ∈ reqs, r.kind = k ∧ r.employeeId = emp ∧ r.date = d ∧
        r.status = .pending := by
  unfold hasPendingSame pendingPred
  rw [List.any_eq_true]
  constructor
  · rintro ⟨r, hr, hp⟩
    exact ⟨r, hr, of_decide_eq_true hp⟩
  · rintro ⟨r, hr, hp⟩
    exact ⟨r, hr, decide_eq_true hp⟩

theorem pendingInv_cons_of_not_dup {reqs : List Request}
    (hinv : pendingInv reqs) (rd : RequestData)
    (hdup : hasPendingSame reqs rd.kind rd.employeeId rd.date = false)
    (req : Request) (hk : req.kind = rd.kind)
    (he : req.employeeId = rd.employeeId) (hd : req.date = rd.date) :
    pendingInv (req :: reqs) := by
  intro k emp d
  rw [pendingCount_cons]
  cases hp : pendingPred k emp d req with
  | false => simpa using hinv k emp d
  | true =>
    unfold pendingPred at hp
    obtain ⟨h1, h2, h3, -⟩ := of_decide_eq_true hp
    obtain rfl : k = rd.kind := by rw [← h1, hk]
    obtain rfl : emp = rd.employeeId := by rw [← h2, he]
    obtain rfl : d = rd.date := by rw [← h3, hd]
    rw [pendingCount_zero_of_no_pending hdup]
    simp

/-- Claim C4: from any engine state satisfying the at-most-one-pending
    invariant, every successful operation preserves it, and `submit` fails
    with DuplicatePendingRequest exactly when a non-terminal request of
    the same kind already exists for the (employeeId, date) key, and
    succeeds exactly otherwise. -/
theorem workflow_duplicate_pending (s : EngineState)
    (hinv : pendingInv s.requests) :
    (∀ op s', runEngineOp op s = .ok s' → pendingInv s'.requests) ∧
    (∀ rd : RequestData,
      (submit s rd = .error .duplicatePendingRequest ↔
        ∃ r ∈ s.requests, r.kind = rd.kind ∧ r.employeeId = rd.employeeId ∧
          r.date = rd.date ∧ r.status = .pending) ∧
      ((∃ s2, submit s rd = .ok s2) ↔
        ¬ ∃ r ∈ s.requests, r.kind = rd.kind ∧ r.employeeId = rd.employeeId ∧
          r.date = rd.date ∧ r.status = .pending)) := by
  constructor
  · intro op s' hrun
    cases op with
    | submitOp rd =>
      simp only [runEngineOp] at hrun
      rw [submit] at hrun
      cases hdup : hasPendingSame s.requests rd.kind rd.employeeId rd.date with
      | true =>
        rw [if_pos hdup] at hrun
        exact Except.noConfusion hrun
      | false =>
        rw [if_neg (by rw [hdup]; exact Bool.false_ne_true)] at hrun
        cases Except.ok.inj hrun
        exact pendingInv_cons_of_not_dup hinv rd hdup _ rfl rfl rfl
    | reviewOp ctx id dec =>
      simp only [runEngineOp] at hrun
      rw [review] at hrun
      split at hrun
      · exact Except.noConfusion hrun
      · split at hrun
        · exact Except.noConfusion hrun
        · cases dec with
          | reject =>
            cases Except.ok.inj hrun
            intro k emp d
            exact le_trans
              (pendingCount_setStatus_le s.requests id .rejected
                (by intro h; cases h) k emp d)
              (hinv k emp d)
          | approve =>
            cases Except.ok.inj hrun
            intro k emp d
            exact le_trans
              (pendingCount_setStatus_le s.requests id .approved
                (by intro h; cases h) k emp d)
              (hinv k emp d)
  · intro rd
    constructor
    · rw [submit]
      cases hdup : hasPendingSame s.requests rd.kind rd.employeeId rd.date with
      | true =>
        rw [if_pos rfl]
        exact ⟨fun _ => (hasPendingSame_iff _ _ _ _).mp hdup, fun _ => rfl⟩
      | false =>
        rw [if_neg Bool.false_ne_true]
        constructor
        · intro h
          exact Except.noConfusion h
        · intro hex
          exfalso
          have := (hasPendingSame_iff _ _ _ _).mpr hex
          rw [hdup] at this
          exact Bool.noConfusion this
    · rw [submit]
      cases hdup : hasPendingSame s.requests rd.kind rd.employeeId rd.date with
      | true =>
        rw [if_pos rfl]
        constructor
        · rintro ⟨s2, h⟩
          exact Except.noConfusion h
        · intro hnot
          exact absurd ((hasPendingSame_iff _ _ _ _).mp hdup) hnot
      | false =>
        rw [if_neg Bool.false_ne_true]
        constructor
        · intro _ hex
          have := (hasPendingSame_iff _ _ _ _).mpr hex
          rw [hdup] at this
          exact Bool.noConfusion this
        · intro _
          exact ⟨_, rfl⟩

/-- Witness for C4: the empty engine state satisfies the invariant, so the
    preservation and submit characterization hold there. -/
theorem workflow_duplicate_pending_witness :
    (∀ op s', runEngineOp op { requests := [], store := ([] : List AttendanceRecord) } = .ok s' →
      pendingInv s'.requests) ∧
    (∀ rd : RequestData,
      (submit { requests := [], store := ([] : List AttendanceRecord) } rd =
          .error .duplicatePendingRequest ↔
        ∃ r ∈ ([] : List Request), r.kind = rd.kind ∧
          r.employeeId = rd.employeeId ∧ r.date = rd.date ∧
          r.status = .pending) ∧
      ((∃ s2, submit { requests := [], store := ([] : List AttendanceRecord) } rd = .ok s2) ↔
        ¬ ∃ r ∈ ([] : List Request), r.kind = rd.kind ∧
          r.employeeId = rd.employeeId ∧ r.date = rd.date ∧
          r.status = .pending)) :=
  workflow_duplicate_pending
    { requests := [], store := ([] : List AttendanceRecord) }
    (fun _ _ _ => Nat.zero_le 1)

/-- Claim C8: reviewing any request with decision rejected leaves the
    attendance store — every record, every field — exactly as it was
    before the review. -/
theorem reject_preserves_attendance (ctx : DayCtx) (s s' : EngineState)
    (id : Nat)
    (hrun : runEngineOp (.reviewOp ctx id .reject) s = .ok s') :
    s'.store = s.store := by
  simp only [runEngineOp] at hrun
  rw [review] at hrun
  split at hrun
  · exact Except.noConfusion hrun
  · split at hrun
    · exact Except.noConfusion hrun
    · cases Except.ok.inj hrun
      rfl

/-- Witness for C8: rejecting the concrete pending WFH request leaves the
    concrete one-record store untouched. -/
theorem reject_preserves_attendance_witness :
    ({ requests := setStatus reqs0 1 .rejected,
       store := [blankRecord 7 3] } : EngineState).store =
      ({ requests := reqs0, store := [blankRecord 7 3] } : EngineState).store :=
  reject_preserves_attendance ctxDefault
    { requests := reqs0, store := [blankRecord 7 3] }
    { requests := setStatus reqs0 1 .rejected, store := [blankRecord 7 3] }
    1 rfl

/-! ### Attendance Record Store lemmas and theorem (claim C7) -/

theorem countKey_cons (r : AttendanceRecord) (st : Store) (emp : Nat)
    (d : Int) :
    countKey (r :: st) emp d =
      (if keyIs emp d r then 1 else 0) + countKey st emp d := by
  unfold countKey
  cases h : keyIs emp d r with
  | false => simp [List.filter_cons, h]
  | true => simp [List.filter_cons, h, Nat.add_comm]

theorem countKey_updateRecord {f : AttendanceRecord → AttendanceRecord}
    (hf : KeyPre f) (st : Store) (emp : Nat) (d : Int) (e2 : Nat) (d2 : Int) :
    countKey (updateRecord st emp d f) e2 d2 = countKey st e2 d2 := by
  induction st with
  | nil => rfl
  | cons r rs ih =>
    show countKey ((if keyIs emp d r then f r else r) ::
      updateRecord rs emp d f) e2 d2 = _
    rw [countKey_cons, countKey_cons, ih]
    congr 1
    have hk : keyIs e2 d2 (f r) = keyIs e2 d2 r := by
      unfold keyIs
      rw [(hf r).1, (hf r).2]
    cases h : keyIs emp d r with
    | true => simp [hk]
    | false => simp

theorem countKey_zero_of_findRecord_none {st : Store} {emp : Nat} {d : Int}
    (h : findRecord st emp d = none) : countKey st emp d = 0 := by
  induction st with
  | nil => rfl
  | cons r rs ih =>
    rw [countKey_cons]
    cases hk : keyIs emp d r with
    | true =>
      exfalso
      unfold findRecord at h
      rw [List.find?_cons, hk] at h
      exact Option.noConfusion h
    | false =>
      unfold findRecord at h
      rw [List.find?_cons, hk] at h
      rw [ih h]
      simp

theorem countKey_pos_of_findRecord_some {st : Store} {emp : Nat} {d : Int}
    {r : AttendanceRecord} (h : findRecord st emp d = some r) :
    1 ≤ countKey st emp d := by
  have h2 : List.find? (keyIs emp d) st = some r := h
  have hmem : r ∈ st := List.mem_of_find?_eq_some h2
  have hp := List.find?_some h2
  have hfil : r ∈ List.filter (keyIs emp d) st := List.mem_filter.mpr ⟨hmem, hp⟩
  exact List.length_pos_of_mem hfil

theorem countKey_upsert {f : AttendanceRecord → AttendanceRecord}
    (hf : KeyPre f) (st : Store) (hinv : storeInv st) (emp : Nat) (d : Int)
    (e2 : Nat) (d2 : Int) :
    countKey (upsertRecord st emp d f) e2 d2 =
      if e2 = emp ∧ d2 = d then 1 else countKey st e2 d2 := by
  unfold upsertRecord
  cases hfind : findRecord st emp d with
  | some r =>
    simp only [Option.isSome_some, if_true, ite_true]
    rw [countKey_updateRecord hf]
    split
    · rename_i hcase
      rw [hcase.1, hcase.2]
      exact le_antisymm (hinv emp d) (countKey_pos_of_findRecord_some hfind)
    · rfl
  | none =>
    simp only [Option.isSome_none, Bool.false_eq_true, if_false, ite_false]
    rw [countKey_cons]
    have hk1 : (f (blankRecord emp d)).employeeId = emp := (hf _).1
    have hk2 : (f (blankRecord emp d)).date = d := (hf _).2
    by_cases hc : e2 = emp ∧ d2 = d
    · rw [if_pos hc]
      have hkt : keyIs e2 d2 (f (blankRecord emp d)) = true := by
        unfold keyIs
        rw [hk1, hk2]
        exact decide_eq_true ⟨hc.1.symm, hc.2.symm⟩
      rw [hkt, hc.1, hc.2, countKey_zero_of_findRecord_none hfind]
      simp
    · rw [if_neg hc]
      have hkf : keyIs e2 d2 (f (blankRecord emp d)) = false := by
        unfold keyIs
        rw [hk1, hk2]
        apply decide_eq_false
        rintro ⟨h1, h2⟩
        exact hc ⟨h1.symm, h2.symm⟩
      rw [hkf]
      simp

theorem storeInv_upsert {f : AttendanceRecord → AttendanceRecord}
    (hf : KeyPre f) {st : Store} (hinv : storeInv st) (emp : Nat) (d : Int) :
    storeInv (upsertRecord st emp d f) := by
  intro e2 d2
  rw [countKey_upsert hf st hinv emp d e2 d2]
  split
  · exact le_refl 1
  · exact hinv e2 d2

theorem countKey_foldl_touch {α : Type} (step : Store → α → Store)
    (key : α → Nat × Int)
    (hstep : ∀ st, storeInv st → ∀ a e2 d2,
      countKey (step st a) e2 d2 =
        if e2 = (key a).1 ∧ d2 = (key a).2 then 1 else countKey st e2 d2) :
    ∀ (l : List α) (st : Store), storeInv st →
      storeInv (List.foldl step st l) ∧
      ∀ e2 d2, countKey (List.foldl step st l) e2 d2 =
        if ∃ a ∈ l, e2 = (key a).1 ∧ d2 = (key a).2 then 1
        else countKey st e2 d2 := by
  intro l
  induction l with
  | nil =>
    intro st hinv
    refine ⟨hinv, ?_⟩
    intro e2 d2
    have hnone : ¬ ∃ a ∈ ([] : List α), e2 = (key a).1 ∧ d2 = (key a).2 := by
      rintro ⟨a, ha, -⟩
      exact List.not_mem_nil a ha
    rw [if_neg hnone]
    rfl
  | cons a as ih =>
    intro st hinv
    have hinv2 : storeInv (step st a) := by
      intro e2 d2
      rw [hstep st hinv a e2 d2]
      split
      · exact le_refl 1
      · exact hinv e2 d2
    obtain ⟨hinv3, hcount⟩ := ih (step st a) hinv2
    refine ⟨hinv3, ?_⟩
    intro e2 d2
    rw [List.foldl_cons, hcount e2 d2, hstep st hinv a e2 d2]
    by_cases h1 : ∃ x ∈ as, e2 = (key x).1 ∧ d2 = (key x).2
    · obtain ⟨x, hx, hk⟩ := h1
      rw [if_pos ⟨x, hx, hk⟩, if_pos ⟨x, List.mem_cons_of_mem a hx, hk⟩]
    · rw [if_neg h1]
      by_cases h2 : e2 = (key a).1 ∧ d2 = (key a).2
      · rw [if_pos h2, if_pos ⟨a, List.mem_cons_self a as, h2⟩]
      · rw [if_neg h2, if_neg ?_]
        rintro ⟨x, hx, hk⟩
        rcases List.mem_cons.mp hx with rfl | hx2
        · exact h2 hk
        · exact h1 ⟨x, hx2, hk⟩

theorem countKey_matStep (ctx : DayCtx) :
    ∀ st, storeInv st → ∀ (p : Nat × Int) (e2 : Nat) (d2 : Int),
      countKey (matStep ctx st p) e2 d2 =
        if e2 = p.1 ∧ d2 = p.2 then 1 else countKey st e2 d2 := by
  intro st hinv p e2 d2
  unfold matStep
  cases hfind : findRecord st p.1 p.2 with
  | some r =>
    show countKey st e2 d2 = _
    split
    · rename_i hc
      obtain ⟨rfl, rfl⟩ := hc
      exact le_antisymm (hinv p.1 p.2) (countKey_pos_of_findRecord_some hfind)
    · rfl
  | none =>
    show countKey (reResolve ctx (blankRecord p.1 p.2) :: st) e2 d2 = _
    rw [countKey_cons]
    by_cases hc : e2 = p.1 ∧ d2 = p.2
    · rw [if_pos hc]
      have hkt : keyIs e2 d2 (reResolve ctx (blankRecord p.1 p.2)) = true := by
        unfold keyIs
        exact decide_eq_true ⟨hc.1.symm, hc.2.symm⟩
      rw [hkt, hc.1, hc.2, countKey_zero_of_findRecord_none hfind]
      simp
    · rw [if_neg hc]
      have hkf : keyIs e2 d2 (reResolve ctx (blankRecord p.1 p.2)) = false := by
        unfold keyIs
        apply decide_eq_false
        rintro ⟨h1, h2⟩
        exact hc ⟨h1.symm, h2.symm⟩
      rw [hkf]
      simp

/-- Claim C7: from any store state where each (employeeId, date) key holds
    at most one record, every successful store operation — check-in,
    check-out, regularization application, leave/WFH approval application,
    nightly materialization — preserves that invariant, and afterwards
    every key the operation touched holds exactly one record. -/
theorem store_one_record_per_key (op : StoreOp) (st st' : Store)
    (hinv : storeInv st) (hrun : runStoreOp op st = .ok st') :
    storeInv st' ∧ ∀ p ∈ touchedKeys op, countKey st' p.1 p.2 = 1 := by
  cases op with
  | checkInOp ctx emp d ts =>
    simp only [runStoreOp] at hrun
    rw [recordCheckIn] at hrun
    split at hrun
    · rename_i r hfind
      split at hrun
      · exact Except.noConfusion hrun
      · cases Except.ok.inj hrun
        have hf : KeyPre (fun r0 => reResolve ctx { r0 with checkIn := some ts }) :=
          fun r0 => ⟨rfl, rfl⟩
        constructor
        · intro e2 d2
          rw [countKey_updateRecord hf]
          exact hinv e2 d2
        · intro p hp
          simp only [touchedKeys, List.mem_singleton] at hp
          subst hp
          rw [countKey_updateRecord hf]
          exact le_antisymm (hinv emp d) (countKey_pos_of_findRecord_some hfind)
    · rename_i hfind
      cases Except.ok.inj hrun
      constructor
      · intro e2 d2
        rw [countKey_cons]
        cases hk : keyIs e2 d2
            (reResolve ctx { blankRecord emp d with checkIn := some ts }) with
        | true =>
          have hke := of_decide_eq_true hk
          obtain ⟨rfl, rfl⟩ : e2 = emp ∧ d2 = d := ⟨hke.1.symm, hke.2.symm⟩
          rw [countKey_zero_of_findRecord_none hfind]
          simp
        | false =>
          simp only [Bool.false_eq_true, if_false, ite_false, Nat.zero_add]
          exact hinv e2 d2
      · intro p hp
        simp only [touchedKeys, List.mem_singleton] at hp
        subst hp
        rw [countKey_cons]
        have hkt : keyIs emp d
            (reResolve ctx { blankRecord emp d with checkIn := some ts }) = true :=
          decide_eq_true ⟨rfl, rfl⟩
        rw [hkt, countKey_zero_of_findRecord_none hfind]
        simp
  | checkOutOp ctx emp d ts =>
    simp only [runStoreOp] at hrun
    rw [recordCheckOut] at hrun
    split at hrun
    · rename_i r hfind
      split at hrun
      · exact Except.noConfusion hrun
      · cases Except.ok.inj hrun
        have hf : KeyPre (fun r0 => reResolve ctx { r0 with checkOut := some ts }) :=
          fun r0 => ⟨rfl, rfl⟩
        constructor
        · intro e2 d2
          rw [countKey_updateRecord hf]
          exact hinv e2 d2
        · intro p hp
          simp only [touchedKeys, List.mem_singleton] at hp
          subst hp
          rw [countKey_updateRecord hf]
          exact le_antisymm (hinv emp d) (countKey_pos_of_findRecord_some hfind)
    · exact Except.noConfusion hrun
  | regOp ctx emp d ri ro =>
    simp only [runStoreOp] at hrun
    cases Except.ok.inj hrun
    have hf : KeyPre (fun r0 => reResolve ctx { r0 with checkIn := ri, checkOut := ro }) :=
      fun r0 => ⟨rfl, rfl⟩
    constructor
    · exact storeInv_upsert hf hinv emp d
    · intro p hp
      simp only [touchedKeys, List.mem_singleton] at hp
      subst hp
      rw [applyRegularization, countKey_upsert hf st hinv]
      rw [if_pos ⟨rfl, rfl⟩]
  | leaveWfhOp ctx emp dates w =>
    simp only [runStoreOp] at hrun
    cases Except.ok.inj hrun
    have hf : KeyPre (reResolve (leaveCtx ctx w)) := fun r0 => ⟨rfl, rfl⟩
    have hstep : ∀ st0, storeInv st0 → ∀ (a : Int) (e2 : Nat) (d2 : Int),
        countKey (upsertRecord st0 emp a (reResolve (leaveCtx ctx w))) e2 d2 =
          if e2 = ((fun a => ((emp, a) : Nat × Int)) a).1 ∧
              d2 = ((fun a => ((emp, a) : Nat × Int)) a).2 then 1
          else countKey st0 e2 d2 :=
      fun st0 h a e2 d2 => countKey_upsert hf st0 h emp a e2 d2
    obtain ⟨h1, h2⟩ := countKey_foldl_touch
      (fun acc d => upsertRecord acc emp d (reResolve (leaveCtx ctx w)))
      (fun a => (emp, a)) hstep dates st hinv
    constructor
    · exact h1
    · intro p hp
      simp only [touchedKeys] at hp
      obtain ⟨d0, hd0, rfl⟩ := List.mem_map.mp hp
      rw [applyLeaveOrWFHApproval, h2]
      rw [if_pos ⟨d0, hd0, rfl, rfl⟩]
  | materializeOp ctx pairs =>
    simp only [runStoreOp] at hrun
    cases Except.ok.inj hrun
    obtain ⟨h1, h2⟩ := countKey_foldl_touch (matStep ctx)
      (fun p => p) (countKey_matStep ctx) pairs st hinv
    constructor
    · exact h1
    · intro p hp
      simp only [touchedKeys] at hp
      rw [materializeDays, h2]
      rw [if_pos ⟨p, hp, rfl, rfl⟩]

/-- Witness for C7: applying a concrete regularization to the empty store
    yields a store satisfying the invariant with exactly one record at the
    touched key. -/
theorem store_one_record_per_key_witness :
    storeInv (applyRegularization ctxDefault ([] : Store) 7 3
      (some 550) (some 1085)) ∧
    ∀ p ∈ touchedKeys (.regOp ctxDefault 7 3 (some 550) (some 1085)),
      countKey (applyRegularization ctxDefault ([] : Store) 7 3
        (some 550) (some 1085)) p.1 p.2 = 1 :=
  store_one_record_per_key (.regOp ctxDefault 7 3 (some 550) (some 1085))
    ([] : Store) _ (fun _ _ => Nat.zero_le 1) rfl

end Hrms
